import Mathlib

/-!
Verification of the HetrixTools monitoring agent's sampling-and-aggregation
core (hetrixtools_agent.py, version 1.5.9).

The agent's collect loop, its per-tick parsing and accumulation, the report
averaging, and the encoding helpers are shallowly embedded below.  Python
strings are lists of characters, Python floats are exact rationals, Python
dictionaries are Option-valued functions (a missing key reads as none), and
any uncaught Python exception (IndexError, ValueError, KeyError,
ZeroDivisionError) is modelled by an Option-valued computation returning
none.  External commands and counter files are modelled by per-tick
environments carrying the text each tick would read.
-/

namespace HetrixAgent

/-- Characters of a Python string. -/
abbrev Str := List Char

/-- Character list of a Lean string literal. -/
def str (s : String) : Str := s.data

/-- Python int() applied to a float: truncation toward zero of the exact rational. -/
def pyTrunc (q : ℚ) : ℤ := q.num.tdiv (q.den : ℤ)

/-- Decimal accumulator for pyInt. -/
def digitsToNatAux : Str → ℕ → Option ℕ
  | [], acc => some acc
  | c :: rest, acc => if c.isDigit then digitsToNatAux rest (acc * 10 + (c.toNat - 48)) else none

/-- Value of a nonempty all-digit string. -/
def digitsToNat (s : Str) : Option ℕ :=
  match s with
  | [] => none
  | _ => digitsToNatAux s 0

/-- Python int(s) on command output: optional sign then decimal digits; none models ValueError. -/
def pyInt : Str → Option ℤ
  | '-' :: rest => (digitsToNat rest).map (fun n => -(n : ℤ))
  | '+' :: rest => (digitsToNat rest).map (fun n => (n : ℤ))
  | s => (digitsToNat s).map (fun n => (n : ℤ))

/-- Python int(parts[i]): IndexError or ValueError becomes none. -/
def pyIntAt (parts : List Str) (i : ℕ) : Option ℤ := (parts.get? i).bind pyInt

/-- Python substring test, pat in s. -/
def containsSub (pat : Str) : Str → Bool
  | [] => pat.isPrefixOf []
  | c :: rest => pat.isPrefixOf (c :: rest) || containsSub pat rest

/-- Left-to-right non-overlapping occurrence scan; the fuel only bounds the
recursion and never runs out when it starts at the text's length, because a
nonempty needle makes every step consume at least one character. -/
def pyStrCountAux : ℕ → Str → Str → ℕ
  | 0, _, _ => 0
  | _ + 1, [], _ => 0
  | fuel + 1, c :: rest, pat =>
    if pat.isPrefixOf (c :: rest) then 1 + pyStrCountAux fuel ((c :: rest).drop pat.length) pat
    else pyStrCountAux fuel rest pat

/-- Python s.count(pat): non-overlapping occurrence count. -/
def pyStrCount (s pat : Str) : ℕ :=
  match pat with
  | [] => s.length + 1
  | _ => pyStrCountAux s.length s pat

/-- Python s.replace(c, r) for a single-character needle. -/
def pyReplace (c : Char) (r : Str) : Str → Str
  | [] => []
  | x :: rest => (if x = c then r else [x]) ++ pyReplace c r rest

/-! ## Encoding helpers (lines 101-135, 321 of the source) -/

/-- The standard base64 alphabet used by Python base64.b64encode. -/
def b64Alphabet : Str := str "ABCDEFGHIJKLMNOPQRSTUVWXYZabcdefghijklmnopqrstuvwxyz0123456789+/"

/-- Sextet to base64 character. -/
def encChar (n : ℕ) : Char := b64Alphabet.getD n '='

/-- Base64 character back to its sextet. -/
def decChar (c : Char) : Option ℕ := b64Alphabet.findIdx? (fun x => x == c)

/-- RFC 4648 base64 of a byte list, as produced by Python base64.b64encode. -/
def b64Encode : List ℕ → Str
  | [] => []
  | [a] => [encChar (a / 4), encChar (a % 4 * 16), '=', '=']
  | [a, b] => [encChar (a / 4), encChar (a % 4 * 16 + b / 16), encChar (b % 16 * 4), '=']
  | a :: b :: c :: rest =>
      encChar (a / 4) :: encChar (a % 4 * 16 + b / 16) :: encChar (b % 16 * 4 + c / 64) ::
        encChar (c % 64) :: b64Encode rest

/-- Base64 decoding, the inverse direction demanded by the round-trip property. -/
def b64Decode : Str → Option (List ℕ)
  | [] => some []
  | c1 :: c2 :: c3 :: c4 :: rest =>
    match decChar c1, decChar c2 with
    | some s1, some s2 =>
      if c3 = '=' ∧ c4 = '=' ∧ rest = [] then some [s1 * 4 + s2 / 16]
      else if c4 = '=' ∧ rest = [] then
        match decChar c3 with
        | some s3 => some [s1 * 4 + s2 / 16, s2 % 16 * 16 + s3 / 4]
        | none => none
      else
        match decChar c3, decChar c4, b64Decode rest with
        | some s3, some s4, some tail =>
            some ((s1 * 4 + s2 / 16) :: (s2 % 16 * 16 + s3 / 4) :: (s3 % 4 * 64 + s4) :: tail)
        | _, _, _ => none
    | _, _ => none
  | _ => none

/-- UTF-8 bytes of one code point (one character under Python str.encode()). -/
def utf8Char (n : ℕ) : List ℕ :=
  if n < 128 then [n]
  else if n < 2048 then [192 + n / 64, 128 + n % 64]
  else if n < 65536 then [224 + n / 4096, 128 + n / 64 % 64, 128 + n % 64]
  else [240 + n / 262144, 128 + n / 4096 % 64, 128 + n / 64 % 64, 128 + n % 64]

/-- Python s.encode(): UTF-8 bytes of a string. -/
def strBytes : Str → List ℕ
  | [] => []
  | c :: rest => utf8Char c.toNat ++ strBytes rest

/-- Source base64_prep (lines 123-127): replace + with %2B, then / with %2F. -/
def base64_prep (s : Str) : Str := pyReplace '/' (str "%2F") (pyReplace '+' (str "%2B") s)

/-- Source compress_and_encode (lines 129-135), with the external gzip library
abstracted as the parameter gz. -/
def compress_and_encode (gz : List ℕ → List ℕ) (data : List ℕ) : Str :=
  base64_prep (b64Encode (gz data))

/-- Undo base64_prep: map %2B and %2F escapes back (spec decode direction). -/
def pctUnescape : Str → Str
  | [] => []
  | [c] => [c]
  | [c1, c2] => [c1, c2]
  | c1 :: c2 :: c3 :: rest =>
    if c1 = '%' ∧ c2 = '2' ∧ c3 = 'B' then '+' :: pctUnescape rest
    else if c1 = '%' ∧ c2 = '2' ∧ c3 = 'F' then '/' :: pctUnescape rest
    else c1 :: pctUnescape (c2 :: c3 :: rest)

/-- Spec decode of a gzip+base64 report field: unescape, base64-decode, gunzip. -/
def decodeField (gunz : List ℕ → List ℕ) (f : Str) : Option (List ℕ) :=
  (b64Decode (pctUnescape f)).map gunz

/-- Python base64.b64encode(s.encode()).decode(), used for service names and os info. -/
def b64OfStr (s : Str) : Str := b64Encode (strBytes s)

/-- Source os_encoded (line 321): plain b64encode of "os|kernel|reboot", WITHOUT base64_prep. -/
def os_encoded (os_info kernel_version : Str) (requires_reboot : ℕ) : Str :=
  b64OfStr (os_info ++ '|' :: kernel_version ++ '|' :: Nat.toDigits 10 requires_reboot)

/-- Source service_status (lines 101-121).  psOut is the output of
ps -ef | grep -v grep | grep name | wc -l; sysctl says whether a systemctl
binary exists; isActive models systemctl is-active exiting 0.  The Bool in
the result records whether the systemctl fallback was invoked. -/
def service_status (name psOut : Str) (sysctl : Bool) (isActive : Bool) : Option (Str × Bool) :=
  let fallback : Option (Str × Bool) :=
    if sysctl then
      if isActive then some (b64OfStr name ++ str ",1", true)
      else some (b64OfStr name ++ str ",0", true)
    else some (b64OfStr name ++ str ",0", false)
  if psOut ≠ [] then
    match pyInt psOut with
    | none => none
    | some n => if 0 < n then some (b64OfStr name ++ str ",1", false) else fallback
  else fallback

/-- Source swap usage (lines 363-366). -/
def swap_usage (swap_size swap_free : ℤ) : ℚ :=
  if 0 < swap_size then 100 - (swap_free : ℚ) / (swap_size : ℚ) * 100 else 0

/-! ## Data model of the collect loop (lines 151-291 of the source) -/

/-- One line of /proc/net/dev: its raw text plus the parsed columns
parts[1] (rx bytes) and parts[9] (tx bytes). -/
structure NetLine where
  raw : Str
  rx : ℤ
  tx : ℤ

/-- One line of /proc/diskstats: raw text plus parsed columns parts[5] and parts[9]. -/
structure DiskLine where
  raw : Str
  c5 : ℤ
  c9 : ℤ

/-- External readings available to one tick of the collect loop: the split
vmstat output, the MemTotal command output, the /proc/net/dev contents, the
time.time() value of this tick's read, the netstat column output, and the
wall-clock minute observed at the end of the tick. -/
structure TickEnv where
  vmstat : List Str
  memTot : Str
  netDev : List NetLine
  tTime : ℚ
  netstat : Str
  minute : ℕ

/-- Static configuration of one run: monitored interfaces, watched ports, and
the minute M recorded at start (line 157). -/
structure Config where
  nics : List Str
  ports : List Str
  M : ℕ

/-- The loop accumulators (lines 154-156, 178-201, 222-224).  The four
network dictionaries and their KeyError behaviour are Option-valued
functions. -/
structure AgentState where
  t_cpu : ℤ
  t_iow : ℤ
  t_ram : ℚ
  a_rx : Str → Option ℤ
  a_tx : Str → Option ℤ
  t_rx : Str → Option ℤ
  t_tx : Str → Option ℤ
  conns : Str → ℕ
  start_time : ℚ
  t_time_diff : ℚ

/-- Source line 48. -/
def COLLECT_EVERY_X_SECONDS : ℕ := 3

/-- Source line 51. -/
def RUNTIME : ℕ := 60

/-- Source line 152: how many times per minute the data should be collected. -/
def run_times : ℕ := RUNTIME / COLLECT_EVERY_X_SECONDS

/-- Python dict assignment d[k] = v on an Option-valued dictionary. -/
def upd (f : Str → Option ℤ) (k : Str) (v : ℤ) : Str → Option ℤ :=
  fun k' => if k' = k then some v else f k'

/-- Python dict assignment on a count dictionary. -/
def updN (f : Str → ℕ) (k : Str) (v : ℕ) : Str → ℕ :=
  fun k' => if k' = k then v else f k'

/-- Scan /proc/net/dev lines for the first one containing "nic:"
(lines 185-192 and 254-267). -/
def findNic (lines : List NetLine) (nic : Str) : Option (ℤ × ℤ) :=
  match lines.find? (fun l => containsSub (nic ++ [':']) l.raw) with
  | some l => some (l.rx, l.tx)
  | none => none

/-- Scan /proc/diskstats lines for the first one containing the device name
(lines 213-219 and 284-291). -/
def findDisk (lines : List DiskLine) (disk : Str) : Option (ℤ × ℤ) :=
  match lines.find? (fun l => containsSub disk l.raw) with
  | some l => some (l.c5, l.c9)
  | none => none

/-- Per-interface body of the network section of one tick (lines 253-267):
rate = (current - previous) / time_diff truncated toward zero, added to the
running sum, and the current reading replaces the stored previous one.
A missing dictionary key is a KeyError and time_diff = 0 a
ZeroDivisionError, both none. -/
def nicUpdate (netDev : List NetLine) (td : ℚ) (nic : Str) (st : AgentState) :
    Option AgentState :=
  match findNic netDev nic with
  | none => some st
  | some (r, t) =>
    match st.a_rx nic, st.a_tx nic, st.t_rx nic, st.t_tx nic with
    | some arx, some atx, some trx, some ttx =>
      if td = 0 then none
      else some { st with
        a_rx := upd st.a_rx nic r
        t_rx := upd st.t_rx nic (trx + pyTrunc (((r - arx : ℤ) : ℚ) / td))
        a_tx := upd st.a_tx nic t
        t_tx := upd st.t_tx nic (ttx + pyTrunc (((t - atx : ℤ) : ℚ) / td)) }
    | _, _, _, _ => none

/-- The for nic in network_interfaces_array loop of one tick. -/
def nicsStep (netDev : List NetLine) (td : ℚ) : List Str → AgentState → Option AgentState
  | [], st => some st
  | nic :: rest, st =>
    match nicUpdate netDev td nic st with
    | some st' => nicsStep netDev td rest st'
    | none => none

/-- The substring counted per port: ":port\n" (lines 200, 273). -/
def connPat (p : Str) : Str := ':' :: (p ++ ['\n'])

/-- Per-tick port-connection accumulation (lines 270-274): a count added to
the running sum, with no division. -/
def connsStep (netstat : Str) : List Str → (Str → ℕ) → (Str → ℕ)
  | [], cs => cs
  | p :: rest, cs => connsStep netstat rest (updN cs p (cs p + pyStrCount netstat (connPat p)))

/-- Pre-loop port-connection counts (lines 196-201): the dictionary is seeded
with a snapshot count taken before the first tick. -/
def connsInit (netstat0 : Str) : List Str → (Str → ℕ) → (Str → ℕ)
  | [], cs => cs
  | p :: rest, cs => connsInit netstat0 rest (updN cs p (pyStrCount netstat0 (connPat p)))

/-- Parse-and-compute of the vmstat/meminfo section of one tick
(lines 228-243): cpu = 100 - parts[14], iow = parts[15],
ram = 100 - (parts[3]+parts[4]+parts[5]) * 100 / MemTotal.  none models the
uncaught Python exception on short or unparseable output and on MemTotal 0. -/
def parseVmstatTick (e : TickEnv) : Option (ℤ × ℤ × ℚ) := do
  let i14 ← pyIntAt e.vmstat 14
  let iow ← pyIntAt e.vmstat 15
  let i3 ← pyIntAt e.vmstat 3
  let i4 ← pyIntAt e.vmstat 4
  let i5 ← pyIntAt e.vmstat 5
  let memTotal ← pyInt e.memTot
  if memTotal = 0 then none
  else some (100 - i14, iow, 100 - ((i3 + i4 + i5 : ℤ) : ℚ) * 100 / (memTotal : ℚ))

/-- The cpu contribution a tick adds when it succeeds. -/
def cpuVal (e : TickEnv) : ℤ := ((parseVmstatTick e).map (fun v => v.1)).getD 0

/-- The io-wait contribution a tick adds when it succeeds. -/
def iowVal (e : TickEnv) : ℤ := ((parseVmstatTick e).map (fun v => v.2.1)).getD 0

/-- The ram-percentage contribution a tick adds when it succeeds. -/
def ramVal (e : TickEnv) : ℚ := ((parseVmstatTick e).map (fun v => v.2.2)).getD 0

/-- One iteration of the collect loop body (lines 227-274): vmstat section,
time handling with time_diff = tTime - start_time, network section, port
section. -/
def tick (cfg : Config) (e : TickEnv) (st : AgentState) : Option AgentState :=
  match parseVmstatTick e with
  | none => none
  | some (cpu, iow, ram) =>
    match nicsStep e.netDev (e.tTime - st.start_time) cfg.nics
        { st with t_cpu := st.t_cpu + cpu, t_iow := st.t_iow + iow, t_ram := st.t_ram + ram,
                  t_time_diff := st.t_time_diff + (e.tTime - st.start_time),
                  start_time := e.tTime } with
    | none => none
    | some st2 => some { st2 with conns := connsStep e.netstat cfg.ports st2.conns }

/-- The collect loop (lines 226-279).  X counts executed ticks; the minute
check MM > M runs at the end of each tick and breaks the loop. -/
def runLoop (cfg : Config) : List TickEnv → ℕ → AgentState → Option (AgentState × ℕ)
  | [], X, st => some (st, X)
  | e :: rest, X, st =>
    match tick cfg e st with
    | none => none
    | some st' => if cfg.M < e.minute then some (st', X + 1) else runLoop cfg rest (X + 1) st'

/-- How many ticks the loop executes over a schedule: all of them, unless a
tick observes a minute strictly greater than M, in which case that tick is
the last. -/
def ticksPlanned (M : ℕ) : List TickEnv → ℕ
  | [] => 0
  | e :: rest => if M < e.minute then 1 else ticksPlanned M rest + 1

/-- Per-tick elapsed wall-clock times, each measured from the previous tick's
read (the time.time() chaining of lines 247-250). -/
def elapsedList (t0 : ℚ) : List TickEnv → List ℚ
  | [] => []
  | e :: rest => (e.tTime - t0) :: elapsedList e.tTime rest

/-- The truncated per-tick rates of one interface over a schedule; pick
selects the rx or tx column. -/
def nicRates (pick : ℤ × ℤ → ℤ) (nic : Str) : List TickEnv → ℤ → ℚ → List ℤ
  | [], _, _ => []
  | e :: rest, prev, t0 =>
    match findNic e.netDev nic with
    | none => nicRates pick nic rest prev e.tTime
    | some rt => pyTrunc (((pick rt - prev : ℤ) : ℚ) / (e.tTime - t0)) ::
        nicRates pick nic rest (pick rt) e.tTime

/-- The last stored counter of one interface over a schedule. -/
def nicLast (pick : ℤ × ℤ → ℤ) (nic : Str) : List TickEnv → ℤ → ℤ
  | [], prev => prev
  | e :: rest, prev =>
    match findNic e.netDev nic with
    | none => nicLast pick nic rest prev
    | some rt => nicLast pick nic rest (pick rt)

/-- Initial interface counters (lines 177-192): only interfaces found in the
initial /proc/net/dev get dictionary entries. -/
def nicInit (netDev0 : List NetLine) : List Str → AgentState → AgentState
  | [], st => st
  | nic :: rest, st =>
    match findNic netDev0 nic with
    | none => nicInit netDev0 rest st
    | some (r, t) =>
      nicInit netDev0 rest
        { st with a_rx := upd st.a_rx nic r, a_tx := upd st.a_tx nic t,
                  t_rx := upd st.t_rx nic 0, t_tx := upd st.t_tx nic 0 }

/-- Agent state right before the collect loop (lines 154-224). -/
def initState (cfg : Config) (netDev0 : List NetLine) (netstat0 : Str) (t0 : ℚ) : AgentState :=
  nicInit netDev0 cfg.nics
    { t_cpu := 0, t_iow := 0, t_ram := 0,
      a_rx := fun _ => none, a_tx := fun _ => none, t_rx := fun _ => none, t_tx := fun _ => none,
      conns := connsInit netstat0 cfg.ports (fun _ => 0),
      start_time := t0, t_time_diff := 0 }

/-- Source lines 205-208: the hardcoded mount-point/device pairs. -/
def v_disks : List (Str × Str) := [(str "/", str "sda1"), (str "/volume1", str "sda3")]

/-- Initial diskstats readings taken before the first tick (lines 210-219). -/
def iopsInit (diskstats0 : List DiskLine) :
    List (Str × Str) → (Str → Option ℤ) → (Str → Option ℤ) →
      ((Str → Option ℤ) × (Str → Option ℤ))
  | [], rd, wr => (rd, wr)
  | (mount, disk) :: rest, rd, wr =>
    match findDisk diskstats0 disk with
    | none => iopsInit diskstats0 rest rd wr
    | some (r, w) => iopsInit diskstats0 rest (upd rd mount r) (upd wr mount w)

/-- Final IOPS value of one disk target (lines 283-291): a single
whole-window counter delta, scaled by 512 and divided by t_time_diff. -/
def iopsFinal (diskstats1 : List DiskLine) (rd0 wr0 : Str → Option ℤ) (ttd : ℚ)
    (mount disk : Str) : Option (ℤ × ℤ) :=
  match findDisk diskstats1 disk with
  | none => none
  | some (r1, w1) =>
    match rd0 mount, wr0 mount with
    | some r0, some w0 =>
      if ttd = 0 then none
      else some (pyTrunc ((((r1 - r0) * 512 : ℤ) : ℚ) / ttd),
                 pyTrunc ((((w1 - w0) * 512 : ℤ) : ℚ) / ttd))
    | _, _ => none

/-- Line 347: cpu_avg = t_cpu / X. -/
def cpu_avg (st : AgentState) (X : ℕ) : Option ℚ :=
  if X = 0 then none else some ((st.t_cpu : ℚ) / (X : ℚ))

/-- Line 350: iow_avg = t_iow / X. -/
def iow_avg (st : AgentState) (X : ℕ) : Option ℚ :=
  if X = 0 then none else some ((st.t_iow : ℚ) / (X : ℚ))

/-- Line 356: ram_avg = t_ram / X. -/
def ram_avg (st : AgentState) (X : ℕ) : Option ℚ :=
  if X = 0 then none else some (st.t_ram / (X : ℚ))

/-- Line 379: rx_avg = int(t_rx[nic] / X); a missing key is a KeyError. -/
def rx_avg (st : AgentState) (X : ℕ) (nic : Str) : Option ℤ :=
  match st.t_rx nic with
  | none => none
  | some v => if X = 0 then none else some (pyTrunc ((v : ℚ) / (X : ℚ)))

/-- Line 380: tx_avg = int(t_tx[nic] / X). -/
def tx_avg (st : AgentState) (X : ℕ) (nic : Str) : Option ℤ :=
  match st.t_tx nic with
  | none => none
  | some v => if X = 0 then none else some (pyTrunc ((v : ℚ) / (X : ℚ)))

/-- Line 389: con_avg = int(connections[c_port] / X). -/
def con_avg (st : AgentState) (X : ℕ) (p : Str) : Option ℤ :=
  if X = 0 then none else some (pyTrunc ((st.conns p : ℚ) / (X : ℚ)))

/-! ## Concrete runs used below as test vectors -/

/-- A well-formed split vmstat line: idle 90, io-wait 4, free+buff+cache 10+20+30. -/
def vm16 : List Str :=
  [str "1", str "1", str "2", str "10", str "20", str "30", str "0", str "0",
   str "0", str "0", str "0", str "0", str "0", str "0", str "90", str "4"]

/-- An all-zero accumulator state. -/
def stZero : AgentState :=
  { t_cpu := 0, t_iow := 0, t_ram := 0,
    a_rx := fun _ => none, a_tx := fun _ => none, t_rx := fun _ => none, t_tx := fun _ => none,
    conns := fun _ => 0, start_time := 0, t_time_diff := 0 }

/-- Configuration with one interface e0 and no watched ports. -/
def cfg3 : Config := { nics := [str "e0"], ports := [], M := 59 }

/-- Tick read at t = 3 with the e0 byte counters at 1500 (rx) and 800 (tx). -/
def env3a : TickEnv :=
  { vmstat := vm16, memTot := str "1000",
    netDev := [{ raw := str " e0: 1500", rx := 1500, tx := 800 }],
    tTime := 3, netstat := [], minute := 0 }

/-- Tick read at t = 6 with unchanged counters. -/
def env3b : TickEnv := { env3a with tTime := 6 }

/-- The spec's rate example: counters [1000, 1500, 1500] read at [0, 3, 6]. -/
def envs3 : List TickEnv := [env3a, env3b]

/-- Window-start state for envs3: e0 counters initialised to 1000/800 at t = 0. -/
def st03 : AgentState :=
  { t_cpu := 0, t_iow := 0, t_ram := 0,
    a_rx := fun k => if k = str "e0" then some 1000 else none,
    a_tx := fun k => if k = str "e0" then some 800 else none,
    t_rx := fun k => if k = str "e0" then some 0 else none,
    t_tx := fun k => if k = str "e0" then some 0 else none,
    conns := fun _ => 0, start_time := 0, t_time_diff := 0 }

/-- State after the first tick of envs3. -/
def st3a : AgentState := (tick cfg3 env3a st03).getD st03

/-- State after the full envs3 run. -/
def st3W : AgentState := ((runLoop cfg3 envs3 0 st03).map Prod.fst).getD st03

/-- Initial diskstats for the whole-window IOPS example. -/
def d40 : List DiskLine :=
  [{ raw := str " 8 1 sda1 x", c5 := 100, c9 := 200 },
   { raw := str " 8 3 sda3 x", c5 := 10, c9 := 20 }]

/-- Final diskstats for the whole-window IOPS example. -/
def d41 : List DiskLine :=
  [{ raw := str " 8 1 sda1 x", c5 := 700, c9 := 800 },
   { raw := str " 8 3 sda3 x", c5 := 40, c9 := 50 }]

/-- Initial IOPS dictionaries read from d40. -/
def iops40 : ((Str → Option ℤ) × (Str → Option ℤ)) :=
  iopsInit d40 v_disks (fun _ => none) (fun _ => none)

/-- Configuration for the 20-tick runs: one interface, one port, start minute 59. -/
def cfg20 : Config := { nics := [str "e0"], ports := [str "80"], M := 59 }

/-- The i-th tick of a 20-tick schedule whose minute has wrapped from 59 to 0:
counters constant, reads 3 seconds apart, one live :80 connection. -/
def env20 (i : ℕ) : TickEnv :=
  { vmstat := vm16, memTot := str "1000",
    netDev := [{ raw := str " e0: 5", rx := 5, tx := 7 }],
    tTime := ((3 * (i + 1) : ℕ) : ℚ), netstat := str "a:80\nb", minute := 0 }

/-- Twenty ticks all observing minute 0 after a start at minute 59. -/
def envs20 : List TickEnv := (List.range 20).map env20

/-- Window-start state for envs20, with one pre-loop :80 connection counted. -/
def st020 : AgentState :=
  { t_cpu := 0, t_iow := 0, t_ram := 0,
    a_rx := fun k => if k = str "e0" then some 5 else none,
    a_tx := fun k => if k = str "e0" then some 7 else none,
    t_rx := fun k => if k = str "e0" then some 0 else none,
    t_tx := fun k => if k = str "e0" then some 0 else none,
    conns := fun k => if k = str "80" then 1 else 0, start_time := 0, t_time_diff := 0 }

/-- State after the full envs20 run. -/
def stW20 : AgentState := ((runLoop cfg20 envs20 0 st020).map Prod.fst).getD st020

/-- Minimal configuration: no interfaces, no ports. -/
def cfg5 : Config := { nics := [], ports := [], M := 59 }

/-- A tick whose vmstat read succeeded. -/
def env5good : TickEnv :=
  { vmstat := vm16, memTot := str "1000", netDev := [], tTime := 3, netstat := [], minute := 0 }

/-- A tick whose vmstat read failed: empty output splits to no fields. -/
def env5bad : TickEnv :=
  { vmstat := [], memTot := str "1000", netDev := [], tTime := 6, netstat := [], minute := 0 }

/-- Configuration watching port 80 only. -/
def cfg7 : Config := { nics := [], ports := [str "80"], M := 59 }

/-- Pre-loop netstat output with one :80 connection. -/
def netstat07 : Str := str "a:80\nb"

/-- Window-start state for the port-count run, seeded by the pre-loop snapshot. -/
def st07 : AgentState := initState cfg7 [] netstat07 0

/-- One tick during which no :80 connection is live. -/
def env7 : TickEnv :=
  { vmstat := vm16, memTot := str "1000", netDev := [], tTime := 3, netstat := str "b",
    minute := 0 }

/-- The one-tick port-count schedule. -/
def envs7 : List TickEnv := [env7]

/-- State after the port-count run. -/
def st7W : AgentState := ((runLoop cfg7 envs7 0 st07).map Prod.fst).getD st07

/-- Configuration whose start minute is 30 (for the 5-of-20 example). -/
def cfg2W : Config := { nics := [], ports := [], M := 30 }

/-- The i-th of 20 ticks where the minute advances from 30 to 31 on tick 5. -/
def env2W (i : ℕ) : TickEnv :=
  { vmstat := vm16, memTot := str "1000", netDev := [], tTime := ((3 * (i + 1) : ℕ) : ℚ),
    netstat := [], minute := if i < 4 then 30 else 31 }

/-- A 20-tick schedule crossing the minute boundary on tick 5. -/
def envs2W : List TickEnv := (List.range 20).map env2W

/-- State after the early-terminated envs2W run. -/
def st2W : AgentState := ((runLoop cfg2W envs2W 0 stZero).map Prod.fst).getD stZero

/-- The first four ticks of envs2W. -/
def pre2W : List TickEnv := (List.range 4).map env2W

/-- The last fifteen ticks of envs2W. -/
def post2W : List TickEnv := (List.range 15).map (fun i => env2W (i + 5))

/-! ## Lemmas about one tick -/

/-- Exhaustive description of a successful nicUpdate: either the interface was
not found in this tick's /proc/net/dev and the state is untouched, or it was
found, all four dictionaries had entries, the elapsed time was nonzero, and
the four entries are updated as in lines 257-266. -/
theorem nicUpdate_cases {netDev : List NetLine} {td : ℚ} {nic : Str} {st st' : AgentState}
    (h : nicUpdate netDev td nic st = some st') :
    (findNic netDev nic = none ∧ st' = st) ∨
    ∃ r t arx atx trx ttx,
      findNic netDev nic = some (r, t) ∧
      st.a_rx nic = some arx ∧ st.a_tx nic = some atx ∧
      st.t_rx nic = some trx ∧ st.t_tx nic = some ttx ∧ td ≠ 0 ∧
      st' = { st with
        a_rx := upd st.a_rx nic r
        t_rx := upd st.t_rx nic (trx + pyTrunc (((r - arx : ℤ) : ℚ) / td))
        a_tx := upd st.a_tx nic t
        t_tx := upd st.t_tx nic (ttx + pyTrunc (((t - atx : ℤ) : ℚ) / td)) } := by
  unfold nicUpdate at h
  split at h
  next hf =>
    injection h with h
    exact Or.inl ⟨hf, h.symm⟩
  next r t hf =>
    split at h
    next arx atx trx ttx h1 h2 h3 h4 =>
      split at h
      next => exact Option.noConfusion h
      next htd =>
        injection h with h
        exact Or.inr ⟨r, t, arx, atx, trx, ttx, hf, h1, h2, h3, h4, htd, h.symm⟩
    next => exact Option.noConfusion h

/-- A successful nicUpdate never touches the scalar accumulators. -/
theorem nicUpdate_scalars {netDev : List NetLine} {td : ℚ} {nic : Str} {st st' : AgentState}
    (h : nicUpdate netDev td nic st = some st') :
    st'.t_cpu = st.t_cpu ∧ st'.t_iow = st.t_iow ∧ st'.t_ram = st.t_ram ∧
    st'.conns = st.conns ∧ st'.start_time = st.start_time ∧
    st'.t_time_diff = st.t_time_diff := by
  rcases nicUpdate_cases h with ⟨_, rfl⟩ | ⟨r, t, arx, atx, trx, ttx, _, _, _, _, _, _, rfl⟩ <;>
    exact ⟨rfl, rfl, rfl, rfl, rfl, rfl⟩

/-- A successful nicUpdate leaves every other interface's dictionary entries alone. -/
theorem nicUpdate_other {netDev : List NetLine} {td : ℚ} {nic nic' : Str} {st st' : AgentState}
    (h : nicUpdate netDev td nic st = some st') (hne : nic' ≠ nic) :
    st'.a_rx nic' = st.a_rx nic' ∧ st'.a_tx nic' = st.a_tx nic' ∧
    st'.t_rx nic' = st.t_rx nic' ∧ st'.t_tx nic' = st.t_tx nic' := by
  rcases nicUpdate_cases h with ⟨_, rfl⟩ | ⟨r, t, arx, atx, trx, ttx, _, _, _, _, _, _, rfl⟩
  · exact ⟨rfl, rfl, rfl, rfl⟩
  · simp [upd, hne]

/-- nicsStep preserves the scalar accumulators. -/
theorem nicsStep_scalars {netDev : List NetLine} {td : ℚ} :
    ∀ {ns : List Str} {st st' : AgentState}, nicsStep netDev td ns st = some st' →
      st'.t_cpu = st.t_cpu ∧ st'.t_iow = st.t_iow ∧ st'.t_ram = st.t_ram ∧
      st'.conns = st.conns ∧ st'.start_time = st.start_time ∧
      st'.t_time_diff = st.t_time_diff := by
  intro ns
  induction ns with
  | nil =>
    intro st st' h
    injection h with h
    subst h
    exact ⟨rfl, rfl, rfl, rfl, rfl, rfl⟩
  | cons n rest ih =>
    intro st st' h
    unfold nicsStep at h
    split at h
    next stm hu =>
      obtain ⟨c1, c2, c3, c4, c5, c6⟩ := nicUpdate_scalars hu
      obtain ⟨d1, d2, d3, d4, d5, d6⟩ := ih h
      exact ⟨d1.trans c1, d2.trans c2, d3.trans c3, d4.trans c4, d5.trans c5, d6.trans c6⟩
    next => exact Option.noConfusion h

/-- nicsStep leaves the entries of an interface name it does not process. -/
theorem nicsStep_other {netDev : List NetLine} {td : ℚ} (nic : Str) :
    ∀ {ns : List Str} {st st' : AgentState}, nicsStep netDev td ns st = some st' →
      (∀ n ∈ ns, nic ≠ n) →
      st'.a_rx nic = st.a_rx nic ∧ st'.a_tx nic = st.a_tx nic ∧
      st'.t_rx nic = st.t_rx nic ∧ st'.t_tx nic = st.t_tx nic := by
  intro ns
  induction ns with
  | nil =>
    intro st st' h _
    injection h with h
    subst h
    exact ⟨rfl, rfl, rfl, rfl⟩
  | cons n rest ih =>
    intro st st' h hns
    unfold nicsStep at h
    split at h
    next stm hu =>
      obtain ⟨c1, c2, c3, c4⟩ := nicUpdate_other hu (hns n (List.mem_cons_self n rest))
      obtain ⟨d1, d2, d3, d4⟩ := ih h (fun m hm => hns m (List.mem_cons_of_mem n hm))
      exact ⟨d1.trans c1, d2.trans c2, d3.trans c3, d4.trans c4⟩
    next => exact Option.noConfusion h

/-- nicsStep leaves the entries of an interface not present in this tick's
/proc/net/dev. -/
theorem nicsStep_notfound {netDev : List NetLine} {td : ℚ} {nic : Str}
    (hf : findNic netDev nic = none) :
    ∀ {ns : List Str} {st st' : AgentState}, nicsStep netDev td ns st = some st' →
      st'.a_rx nic = st.a_rx nic ∧ st'.a_tx nic = st.a_tx nic ∧
      st'.t_rx nic = st.t_rx nic ∧ st'.t_tx nic = st.t_tx nic := by
  intro ns
  induction ns with
  | nil =>
    intro st st' h
    injection h with h
    subst h
    exact ⟨rfl, rfl, rfl, rfl⟩
  | cons n rest ih =>
    intro st st' h
    unfold nicsStep at h
    split at h
    next stm hu =>
      have hcur : stm.a_rx nic = st.a_rx nic ∧ stm.a_tx nic = st.a_tx nic ∧
          stm.t_rx nic = st.t_rx nic ∧ stm.t_tx nic = st.t_tx nic := by
        by_cases hn : nic = n
        · subst hn
          rcases nicUpdate_cases hu with ⟨_, rfl⟩ |
            ⟨r, t, arx, atx, trx, ttx, hfn, _, _, _, _, _, rfl⟩
          · exact ⟨rfl, rfl, rfl, rfl⟩
          · rw [hf] at hfn
            exact Option.noConfusion hfn
        · exact nicUpdate_other hu hn
      obtain ⟨c1, c2, c3, c4⟩ := hcur
      obtain ⟨d1, d2, d3, d4⟩ := ih h
      exact ⟨d1.trans c1, d2.trans c2, d3.trans c3, d4.trans c4⟩
    next => exact Option.noConfusion h

/-- nicsStep on a duplicate-free interface list updates a found interface's
four entries exactly as lines 257-266 prescribe. -/
theorem nicsStep_found {netDev : List NetLine} {td : ℚ} {nic : Str} {r t : ℤ}
    (hf : findNic netDev nic = some (r, t)) :
    ∀ {ns : List Str} {st st' : AgentState}, ns.Nodup → nic ∈ ns →
      nicsStep netDev td ns st = some st' →
      ∀ {arx atx trx ttx : ℤ}, st.a_rx nic = some arx → st.a_tx nic = some atx →
        st.t_rx nic = some trx → st.t_tx nic = some ttx →
        td ≠ 0 ∧ st'.a_rx nic = some r ∧ st'.a_tx nic = some t ∧
        st'.t_rx nic = some (trx + pyTrunc (((r - arx : ℤ) : ℚ) / td)) ∧
        st'.t_tx nic = some (ttx + pyTrunc (((t - atx : ℤ) : ℚ) / td)) := by
  intro ns
  induction ns with
  | nil =>
    intro st st' _ hmem
    exact absurd hmem (List.not_mem_nil nic)
  | cons n rest ih =>
    intro st st' hnd hmem h arx atx trx ttx h1 h2 h3 h4
    rw [List.nodup_cons] at hnd
    obtain ⟨hnin, hndr⟩ := hnd
    unfold nicsStep at h
    split at h
    next stm hu =>
      by_cases hn : nic = n
      · subst hn
        rcases nicUpdate_cases hu with ⟨hfn, rfl⟩ |
          ⟨r', t', arx', atx', trx', ttx', hfn, h1', h2', h3', h4', htd, rfl⟩
        · rw [hf] at hfn
          exact Option.noConfusion hfn
        · rw [hf] at hfn
          injection hfn with hfn
          injection hfn with hr ht
          subst hr; subst ht
          rw [h1] at h1'; injection h1' with h1'; subst h1'
          rw [h2] at h2'; injection h2' with h2'; subst h2'
          rw [h3] at h3'; injection h3' with h3'; subst h3'
          rw [h4] at h4'; injection h4' with h4'; subst h4'
          obtain ⟨o1, o2, o3, o4⟩ :=
            nicsStep_other nic h (fun m hm hh => hnin (by rw [hh]; exact hm))
          refine ⟨htd, ?_, ?_, ?_, ?_⟩ <;>
            simp [o1, o2, o3, o4, upd]
      · have hmem' : nic ∈ rest := by
          rcases List.mem_cons.mp hmem with hh | hh
          · exact absurd hh hn
          · exact hh
        obtain ⟨o1, o2, o3, o4⟩ := nicUpdate_other hu hn
        exact ih hndr hmem' h (o1.trans h1) (o2.trans h2) (o3.trans h3) (o4.trans h4)
    next => exact Option.noConfusion h

/-- connsStep leaves unprocessed ports alone. -/
theorem connsStep_not_mem {ns : Str} {p : Str} :
    ∀ {ps : List Str} {cs : Str → ℕ}, p ∉ ps → connsStep ns ps cs p = cs p := by
  intro ps
  induction ps with
  | nil => intro cs _; rfl
  | cons q rest ih =>
    intro cs hp
    have hpq : p ≠ q := fun hh => hp (hh ▸ List.mem_cons_self q rest)
    have hrest : p ∉ rest := fun hh => hp (List.mem_cons_of_mem q hh)
    unfold connsStep
    rw [ih hrest]
    simp [updN, hpq]

/-- connsStep adds exactly one tick's count to each watched port's sum. -/
theorem connsStep_mem {ns : Str} {p : Str} :
    ∀ {ps : List Str} {cs : Str → ℕ}, ps.Nodup → p ∈ ps →
      connsStep ns ps cs p = cs p + pyStrCount ns (connPat p) := by
  intro ps
  induction ps with
  | nil => intro cs _ hp; exact absurd hp (List.not_mem_nil p)
  | cons q rest ih =>
    intro cs hnd hp
    rw [List.nodup_cons] at hnd
    obtain ⟨hqnin, hndr⟩ := hnd
    unfold connsStep
    by_cases hpq : p = q
    · subst hpq
      rw [connsStep_not_mem hqnin]
      simp [updN]
    · have hp' : p ∈ rest := by
        rcases List.mem_cons.mp hp with hh | hh
        · exact absurd hh hpq
        · exact hh
      rw [ih hndr hp']
      simp [updN, hpq]

/-- connsInit leaves unconfigured ports alone. -/
theorem connsInit_not_mem {ns0 : Str} {p : Str} :
    ∀ {ps : List Str} {cs : Str → ℕ}, p ∉ ps → connsInit ns0 ps cs p = cs p := by
  intro ps
  induction ps with
  | nil => intro cs _; rfl
  | cons q rest ih =>
    intro cs hp
    have hpq : p ≠ q := fun hh => hp (hh ▸ List.mem_cons_self q rest)
    have hrest : p ∉ rest := fun hh => hp (List.mem_cons_of_mem q hh)
    unfold connsInit
    rw [ih hrest]
    simp [updN, hpq]

/-- connsInit seeds each watched port with the pre-loop snapshot count. -/
theorem connsInit_mem {ns0 : Str} {p : Str} :
    ∀ {ps : List Str} {cs : Str → ℕ}, ps.Nodup → p ∈ ps →
      connsInit ns0 ps cs p = pyStrCount ns0 (connPat p) := by
  intro ps
  induction ps with
  | nil => intro cs _ hp; exact absurd hp (List.not_mem_nil p)
  | cons q rest ih =>
    intro cs hnd hp
    rw [List.nodup_cons] at hnd
    obtain ⟨hqnin, hndr⟩ := hnd
    unfold connsInit
    by_cases hpq : p = q
    · subst hpq
      rw [connsInit_not_mem hqnin]
      simp [updN]
    · have hp' : p ∈ rest := by
        rcases List.mem_cons.mp hp with hh | hh
        · exact absurd hh hpq
        · exact hh
      exact ih hndr hp'

/-! ## Lemmas about one tick of the loop -/

/-- Scalar effect of one successful tick: the per-tick cpu, io-wait and ram
values are added, time_diff since the previous read is accumulated, the read
time becomes the new start_time, and the port counts take one connsStep. -/
theorem tick_scalars {cfg : Config} {e : TickEnv} {st st' : AgentState}
    (h : tick cfg e st = some st') :
    st'.t_cpu = st.t_cpu + cpuVal e ∧ st'.t_iow = st.t_iow + iowVal e ∧
    st'.t_ram = st.t_ram + ramVal e ∧
    st'.t_time_diff = st.t_time_diff + (e.tTime - st.start_time) ∧
    st'.start_time = e.tTime ∧
    st'.conns = connsStep e.netstat cfg.ports st.conns := by
  unfold tick at h
  split at h
  next => exact Option.noConfusion h
  next cpu iow ram hp =>
    split at h
    next => exact Option.noConfusion h
    next st2 hu =>
      injection h with h
      subst h
      obtain ⟨c1, c2, c3, c4, c5, c6⟩ := nicsStep_scalars hu
      have hcpu : cpuVal e = cpu := by simp [cpuVal, hp]
      have hiow : iowVal e = iow := by simp [iowVal, hp]
      have hram : ramVal e = ram := by simp [ramVal, hp]
      rw [hcpu, hiow, hram]
      exact ⟨c1, c2, c3, c6, c5, by rw [c4]⟩

/-- Interface effect of one successful tick when the interface appears in
this tick's /proc/net/dev. -/
theorem tick_nic_found {cfg : Config} {e : TickEnv} {st st' : AgentState} {nic : Str}
    {r t arx atx trx ttx : ℤ}
    (hnd : cfg.nics.Nodup) (hmem : nic ∈ cfg.nics)
    (hf : findNic e.netDev nic = some (r, t))
    (h1 : st.a_rx nic = some arx) (h2 : st.a_tx nic = some atx)
    (h3 : st.t_rx nic = some trx) (h4 : st.t_tx nic = some ttx)
    (h : tick cfg e st = some st') :
    e.tTime - st.start_time ≠ 0 ∧
    st'.a_rx nic = some r ∧ st'.a_tx nic = some t ∧
    st'.t_rx nic = some (trx + pyTrunc (((r - arx : ℤ) : ℚ) / (e.tTime - st.start_time))) ∧
    st'.t_tx nic = some (ttx + pyTrunc (((t - atx : ℤ) : ℚ) / (e.tTime - st.start_time))) := by
  unfold tick at h
  split at h
  next => exact Option.noConfusion h
  next cpu iow ram hp =>
    split at h
    next => exact Option.noConfusion h
    next st2 hu =>
      injection h with h
      subst h
      obtain ⟨htd, n1, n2, n3, n4⟩ := nicsStep_found hf hnd hmem hu h1 h2 h3 h4
      exact ⟨htd, n1, n2, n3, n4⟩

/-- Interface effect of one successful tick when the interface does not
appear in this tick's /proc/net/dev: its entries are untouched. -/
theorem tick_nic_notfound {cfg : Config} {e : TickEnv} {st st' : AgentState} {nic : Str}
    (hf : findNic e.netDev nic = none) (h : tick cfg e st = some st') :
    st'.a_rx nic = st.a_rx nic ∧ st'.a_tx nic = st.a_tx nic ∧
    st'.t_rx nic = st.t_rx nic ∧ st'.t_tx nic = st.t_tx nic := by
  unfold tick at h
  split at h
  next => exact Option.noConfusion h
  next cpu iow ram hp =>
    split at h
    next => exact Option.noConfusion h
    next st2 hu =>
      injection h with h
      subst h
      obtain ⟨n1, n2, n3, n4⟩ := nicsStep_notfound hf hu
      exact ⟨n1, n2, n3, n4⟩

/-- A tick whose vmstat parsing fails kills the whole run. -/
theorem tick_parse_fail {cfg : Config} {e : TickEnv} {st : AgentState}
    (hp : parseVmstatTick e = none) : tick cfg e st = none := by
  unfold tick
  rw [hp]

/-! ## Lemmas about the whole loop -/

/-- The loop's exit counter X is the planned tick count. -/
theorem runLoop_ticks {cfg : Config} :
    ∀ {envs : List TickEnv} {X0 : ℕ} {st st' : AgentState} {X' : ℕ},
      runLoop cfg envs X0 st = some (st', X') → X' = X0 + ticksPlanned cfg.M envs := by
  intro envs
  induction envs with
  | nil =>
    intro X0 st st' X' h
    injection h with h
    injection h with h1 h2
    simp [ticksPlanned, h2]
  | cons e rest ih =>
    intro X0 st st' X' h
    unfold runLoop at h
    split at h
    next => exact Option.noConfusion h
    next st1 ht =>
      split at h
      next hmin =>
        injection h with h
        injection h with h1 h2
        simp [ticksPlanned, if_pos hmin, h2]
      next hmin =>
        have := ih h
        simp [ticksPlanned, if_neg hmin]
        omega

/-- The loop executes at least one tick on a nonempty schedule. -/
theorem ticksPlanned_pos {M : ℕ} {envs : List TickEnv} (h : envs ≠ []) :
    1 ≤ ticksPlanned M envs := by
  cases envs with
  | nil => exact absurd rfl h
  | cons e rest =>
    unfold ticksPlanned
    split
    · omega
    · omega

/-- With no tick observing a minute above M, the loop runs the whole schedule. -/
theorem ticksPlanned_all_le {M : ℕ} :
    ∀ {envs : List TickEnv}, (∀ e ∈ envs, e.minute ≤ M) →
      ticksPlanned M envs = envs.length := by
  intro envs
  induction envs with
  | nil => intro _; rfl
  | cons e rest ih =>
    intro h
    have he : e.minute ≤ M := h e (List.mem_cons_self e rest)
    unfold ticksPlanned
    rw [if_neg (by omega), ih (fun e' he' => h e' (List.mem_cons_of_mem e he'))]
    simp

/-- The first tick observing a minute above M is the last executed one. -/
theorem ticksPlanned_break {M : ℕ} {e : TickEnv} (hm : M < e.minute) :
    ∀ {pre post : List TickEnv}, (∀ e' ∈ pre, e'.minute ≤ M) →
      ticksPlanned M (pre ++ e :: post) = pre.length + 1 := by
  intro pre
  induction pre with
  | nil =>
    intro post _
    simp [ticksPlanned, if_pos hm]
  | cons q rest ih =>
    intro post h
    have hq : q.minute ≤ M := h q (List.mem_cons_self q rest)
    have hrec : ticksPlanned M (rest ++ e :: post) = rest.length + 1 :=
      ih (fun e' he' => h e' (List.mem_cons_of_mem q he'))
    have hstep : ticksPlanned M ((q :: rest) ++ e :: post) =
        ticksPlanned M (rest ++ e :: post) + 1 := by
      simp only [List.cons_append, ticksPlanned, if_neg (by omega : ¬ M < q.minute),
        List.append_eq]
    rw [hstep, hrec]
    simp

/-- Scalar accumulators after a run: each is its initial value plus the sum
of the per-tick contributions of the executed ticks. -/
theorem runLoop_scalars {cfg : Config} :
    ∀ {envs : List TickEnv} {X0 : ℕ} {st st' : AgentState} {X' : ℕ},
      runLoop cfg envs X0 st = some (st', X') →
      st'.t_cpu = st.t_cpu + ((envs.take (ticksPlanned cfg.M envs)).map cpuVal).sum ∧
      st'.t_iow = st.t_iow + ((envs.take (ticksPlanned cfg.M envs)).map iowVal).sum ∧
      st'.t_ram = st.t_ram + ((envs.take (ticksPlanned cfg.M envs)).map ramVal).sum ∧
      st'.t_time_diff = st.t_time_diff +
        (elapsedList st.start_time (envs.take (ticksPlanned cfg.M envs))).sum := by
  intro envs
  induction envs with
  | nil =>
    intro X0 st st' X' h
    injection h with h
    injection h with h1 h2
    subst h1
    simp [ticksPlanned, elapsedList]
  | cons e rest ih =>
    intro X0 st st' X' h
    unfold runLoop at h
    split at h
    next => exact Option.noConfusion h
    next st1 ht =>
      obtain ⟨s1, s2, s3, s4, s5, s6⟩ := tick_scalars ht
      split at h
      next hmin =>
        injection h with h
        injection h with h1 h2
        subst h1
        simp [ticksPlanned, if_pos hmin, elapsedList, s1, s2, s3, s4]
      next hmin =>
        obtain ⟨d1, d2, d3, d4⟩ := ih h
        rw [ticksPlanned, if_neg hmin, List.take_succ_cons]
        simp only [List.map_cons, List.sum_cons, elapsedList]
        constructor
        · rw [d1, s1]; ring
        constructor
        · rw [d2, s2]; ring
        constructor
        · rw [d3, s3]; ring
        · rw [d4, s4, s5]; ring

/-- Per-interface accumulators after a run: the running sums collect exactly
the per-tick truncated rates of the executed ticks, and the stored previous
counter is the last one read. -/
theorem runLoop_nic {cfg : Config} {nic : Str} (hnd : cfg.nics.Nodup) (hmem : nic ∈ cfg.nics) :
    ∀ {envs : List TickEnv} {X0 : ℕ} {st st' : AgentState} {X' : ℕ} {arx atx trx ttx : ℤ},
      runLoop cfg envs X0 st = some (st', X') →
      st.a_rx nic = some arx → st.a_tx nic = some atx →
      st.t_rx nic = some trx → st.t_tx nic = some ttx →
      st'.t_rx nic = some (trx +
        (nicRates Prod.fst nic (envs.take (ticksPlanned cfg.M envs)) arx st.start_time).sum) ∧
      st'.t_tx nic = some (ttx +
        (nicRates Prod.snd nic (envs.take (ticksPlanned cfg.M envs)) atx st.start_time).sum) ∧
      st'.a_rx nic = some (nicLast Prod.fst nic (envs.take (ticksPlanned cfg.M envs)) arx) ∧
      st'.a_tx nic = some (nicLast Prod.snd nic (envs.take (ticksPlanned cfg.M envs)) atx) := by
  intro envs
  induction envs with
  | nil =>
    intro X0 st st' X' arx atx trx ttx h h1 h2 h3 h4
    injection h with h
    injection h with ha hb
    subst ha
    simp [ticksPlanned, nicRates, nicLast, h1, h2, h3, h4]
  | cons e rest ih =>
    intro X0 st st' X' arx atx trx ttx h h1 h2 h3 h4
    unfold runLoop at h
    split at h
    next => exact Option.noConfusion h
    next st1 ht =>
      have hstart : st1.start_time = e.tTime := (tick_scalars ht).2.2.2.2.1
      cases hf : findNic e.netDev nic with
      | none =>
        obtain ⟨n1, n2, n3, n4⟩ := tick_nic_notfound hf ht
        split at h
        next hmin =>
          injection h with h
          injection h with ha hb
          subst ha
          rw [ticksPlanned, if_pos hmin]
          simp [nicRates, nicLast, hf, n1, n2, n3, n4, h1, h2, h3, h4, List.take_succ_cons]
        next hmin =>
          have := ih h (n1.trans h1) (n2.trans h2) (n3.trans h3) (n4.trans h4)
          rw [ticksPlanned, if_neg hmin, List.take_succ_cons]
          simpa [nicRates, nicLast, hf, hstart] using this
      | some rt =>
        obtain ⟨r, t⟩ := rt
        obtain ⟨htd, n1, n2, n3, n4⟩ := tick_nic_found hnd hmem hf h1 h2 h3 h4 ht
        split at h
        next hmin =>
          injection h with h
          injection h with ha hb
          subst ha
          rw [ticksPlanned, if_pos hmin]
          simp [nicRates, nicLast, hf, n1, n2, n3, n4, List.take_succ_cons]
        next hmin =>
          have := ih h n1 n2 n3 n4
          rw [ticksPlanned, if_neg hmin, List.take_succ_cons]
          simp only [nicRates, nicLast, hf, hstart] at this ⊢
          obtain ⟨w1, w2, w3, w4⟩ := this
          refine ⟨?_, ?_, w3, w4⟩
          · rw [w1]; congr 1; rw [List.sum_cons]; ring
          · rw [w2]; congr 1; rw [List.sum_cons]; ring

/-- Port accumulators after a run: each watched port's running sum grows by
one snapshot count per executed tick, with no division anywhere. -/
theorem runLoop_conns {cfg : Config} {p : Str} (hnd : cfg.ports.Nodup) (hp : p ∈ cfg.ports) :
    ∀ {envs : List TickEnv} {X0 : ℕ} {st st' : AgentState} {X' : ℕ},
      runLoop cfg envs X0 st = some (st', X') →
      st'.conns p = st.conns p +
        ((envs.take (ticksPlanned cfg.M envs)).map
          (fun e => pyStrCount e.netstat (connPat p))).sum := by
  intro envs
  induction envs with
  | nil =>
    intro X0 st st' X' h
    injection h with h
    injection h with ha hb
    subst ha
    simp [ticksPlanned]
  | cons e rest ih =>
    intro X0 st st' X' h
    unfold runLoop at h
    split at h
    next => exact Option.noConfusion h
    next st1 ht =>
      have hconns : st1.conns p = st.conns p + pyStrCount e.netstat (connPat p) := by
        rw [(tick_scalars ht).2.2.2.2.2]
        exact connsStep_mem hnd hp
      split at h
      next hmin =>
        injection h with h
        injection h with ha hb
        subst ha
        rw [ticksPlanned, if_pos hmin]
        simp [hconns, List.take_succ_cons]
      next hmin =>
        have := ih h
        rw [ticksPlanned, if_neg hmin, List.take_succ_cons]
        simp only [List.map_cons, List.sum_cons]
        rw [this, hconns]
        ring

/-! ## Lemmas about the encoding helpers -/

/-- Decoding a base64 alphabet character recovers its sextet. -/
theorem decChar_encChar : ∀ n, n < 64 → decChar (encChar n) = some n := by decide

/-- Alphabet characters are never the padding character. -/
theorem encChar_ne_eq : ∀ n, n < 64 → encChar n ≠ '=' := by decide

/-- No output of encChar is the percent character. -/
theorem encChar_ne_pct (n : ℕ) : encChar n ≠ '%' := by
  by_cases h : n < 64
  · exact (by decide : ∀ m, m < 64 → encChar m ≠ '%') n h
  · unfold encChar
    rw [List.getD_eq_default]
    · decide
    · have hlen : b64Alphabet.length = 64 := by decide
      omega

/-- Decoding a double-padded base64 block. -/
theorem b64Decode_pad2 {c1 c2 : Char} {s1 s2 : ℕ} (h1 : decChar c1 = some s1)
    (h2 : decChar c2 = some s2) :
    b64Decode [c1, c2, '=', '='] = some [s1 * 4 + s2 / 16] := by
  simp [b64Decode, h1, h2]

/-- Decoding a single-padded base64 block. -/
theorem b64Decode_pad1 {c1 c2 c3 : Char} {s1 s2 s3 : ℕ} (h1 : decChar c1 = some s1)
    (h2 : decChar c2 = some s2) (h3 : decChar c3 = some s3) (hne : c3 ≠ '=') :
    b64Decode [c1, c2, c3, '='] = some [s1 * 4 + s2 / 16, s2 % 16 * 16 + s3 / 4] := by
  simp [b64Decode, h1, h2, h3, hne]

/-- Decoding a full base64 block followed by more blocks. -/
theorem b64Decode_full {c1 c2 c3 c4 : Char} {rest : Str} {s1 s2 s3 s4 : ℕ} {tl : List ℕ}
    (h1 : decChar c1 = some s1) (h2 : decChar c2 = some s2) (h3 : decChar c3 = some s3)
    (h4 : decChar c4 = some s4) (h3ne : c3 ≠ '=') (h4ne : c4 ≠ '=')
    (hrest : b64Decode rest = some tl) :
    b64Decode (c1 :: c2 :: c3 :: c4 :: rest) =
      some ((s1 * 4 + s2 / 16) :: (s2 % 16 * 16 + s3 / 4) :: (s3 % 4 * 64 + s4) :: tl) := by
  simp [b64Decode, h1, h2, h3, h4, h3ne, h4ne, hrest]

/-- Base64 decoding inverts base64 encoding on byte lists. -/
theorem b64Decode_b64Encode : ∀ bs : List ℕ, (∀ b ∈ bs, b < 256) →
    b64Decode (b64Encode bs) = some bs
  | [], _ => rfl
  | [a], h => by
    have ha : a < 256 := h a (by simp)
    have e1 : decChar (encChar (a / 4)) = some (a / 4) := decChar_encChar _ (by omega)
    have e2 : decChar (encChar (a % 4 * 16)) = some (a % 4 * 16) := decChar_encChar _ (by omega)
    rw [show b64Encode [a] = [encChar (a / 4), encChar (a % 4 * 16), '=', '='] from rfl,
      b64Decode_pad2 e1 e2]
    have v1 : a / 4 * 4 + a % 4 * 16 / 16 = a := by omega
    rw [v1]
  | [a, b], h => by
    have ha : a < 256 := h a (by simp)
    have hb : b < 256 := h b (by simp)
    have e1 : decChar (encChar (a / 4)) = some (a / 4) := decChar_encChar _ (by omega)
    have e2 : decChar (encChar (a % 4 * 16 + b / 16)) = some (a % 4 * 16 + b / 16) :=
      decChar_encChar _ (by omega)
    have e3 : decChar (encChar (b % 16 * 4)) = some (b % 16 * 4) := decChar_encChar _ (by omega)
    rw [show b64Encode [a, b] =
        [encChar (a / 4), encChar (a % 4 * 16 + b / 16), encChar (b % 16 * 4), '='] from rfl,
      b64Decode_pad1 e1 e2 e3 (encChar_ne_eq _ (by omega))]
    have v1 : a / 4 * 4 + (a % 4 * 16 + b / 16) / 16 = a := by omega
    have v2 : (a % 4 * 16 + b / 16) % 16 * 16 + b % 16 * 4 / 4 = b := by omega
    rw [v1, v2]
  | a :: b :: c :: rest, h => by
    have ha : a < 256 := h a (by simp)
    have hb : b < 256 := h b (by simp)
    have hc : c < 256 := h c (by simp)
    have hrest : b64Decode (b64Encode rest) = some rest :=
      b64Decode_b64Encode rest (fun x hx => h x (by simp [hx]))
    have e1 : decChar (encChar (a / 4)) = some (a / 4) := decChar_encChar _ (by omega)
    have e2 : decChar (encChar (a % 4 * 16 + b / 16)) = some (a % 4 * 16 + b / 16) :=
      decChar_encChar _ (by omega)
    have e3 : decChar (encChar (b % 16 * 4 + c / 64)) = some (b % 16 * 4 + c / 64) :=
      decChar_encChar _ (by omega)
    have e4 : decChar (encChar (c % 64)) = some (c % 64) := decChar_encChar _ (by omega)
    rw [show b64Encode (a :: b :: c :: rest) =
        encChar (a / 4) :: encChar (a % 4 * 16 + b / 16) :: encChar (b % 16 * 4 + c / 64) ::
          encChar (c % 64) :: b64Encode rest from rfl,
      b64Decode_full e1 e2 e3 e4 (encChar_ne_eq _ (by omega)) (encChar_ne_eq _ (by omega)) hrest]
    have v1 : a / 4 * 4 + (a % 4 * 16 + b / 16) / 16 = a := by omega
    have v2 : (a % 4 * 16 + b / 16) % 16 * 16 + (b % 16 * 4 + c / 64) / 4 = b := by omega
    have v3 : (b % 16 * 4 + c / 64) % 4 * 64 + c % 64 = c := by omega
    rw [v1, v2, v3]

/-- Base64 output never contains a percent character. -/
theorem pct_not_mem_b64Encode : ∀ bs : List ℕ, '%' ∉ b64Encode bs
  | [] => by simp [b64Encode]
  | [a] => by
    intro hmem
    simp only [b64Encode, List.mem_cons, List.not_mem_nil, or_false] at hmem
    rcases hmem with h | h | h | h
    · exact encChar_ne_pct _ h.symm
    · exact encChar_ne_pct _ h.symm
    · exact absurd h (by decide)
    · exact absurd h (by decide)
  | [a, b] => by
    intro hmem
    simp only [b64Encode, List.mem_cons, List.not_mem_nil, or_false] at hmem
    rcases hmem with h | h | h | h
    · exact encChar_ne_pct _ h.symm
    · exact encChar_ne_pct _ h.symm
    · exact encChar_ne_pct _ h.symm
    · exact absurd h (by decide)
  | a :: b :: c :: rest => by
    intro hmem
    simp only [b64Encode, List.mem_cons] at hmem
    rcases hmem with h | h | h | h | h
    · exact encChar_ne_pct _ h.symm
    · exact encChar_ne_pct _ h.symm
    · exact encChar_ne_pct _ h.symm
    · exact encChar_ne_pct _ h.symm
    · exact pct_not_mem_b64Encode rest h

/-- pctUnescape walks over a character that is not a percent sign. -/
theorem pctUnescape_cons_plain {c : Char} (hc : c ≠ '%') :
    ∀ l : Str, pctUnescape (c :: l) = c :: pctUnescape l
  | [] => rfl
  | [x] => rfl
  | x :: y :: r => by
    show (if c = '%' ∧ x = '2' ∧ y = 'B' then '+' :: pctUnescape r
      else if c = '%' ∧ x = '2' ∧ y = 'F' then '/' :: pctUnescape r
      else c :: pctUnescape (x :: y :: r)) = c :: pctUnescape (x :: y :: r)
    rw [if_neg (fun hh => hc hh.1), if_neg (fun hh => hc hh.1)]

/-- pyReplace distributes over append. -/
theorem pyReplace_append (c : Char) (r : Str) :
    ∀ s t : Str, pyReplace c r (s ++ t) = pyReplace c r s ++ pyReplace c r t
  | [], t => rfl
  | x :: s, t => by
    simp only [List.cons_append, pyReplace, List.append_eq, pyReplace_append c r s t,
      List.append_assoc]

/-- Undoing base64_prep recovers any percent-free string. -/
theorem pctUnescape_prep : ∀ s : Str, '%' ∉ s → pctUnescape (base64_prep s) = s
  | [], _ => rfl
  | c :: s, h => by
    have hs : '%' ∉ s := fun hx => h (List.mem_cons_of_mem c hx)
    have hc : c ≠ '%' := fun hx => h (by rw [hx]; exact List.mem_cons_self '%' s)
    have ih := pctUnescape_prep s hs
    show pctUnescape (pyReplace '/' (str "%2F")
      ((if c = '+' then str "%2B" else [c]) ++ pyReplace '+' (str "%2B") s)) = c :: s
    rw [pyReplace_append]
    by_cases hp : c = '+'
    · subst hp
      rw [if_pos rfl]
      show pctUnescape ('%' :: '2' :: 'B' :: base64_prep s) = '+' :: s
      rw [show ∀ l : Str, pctUnescape ('%' :: '2' :: 'B' :: l) = '+' :: pctUnescape l
        from fun l => rfl]
      rw [ih]
    · rw [if_neg hp]
      by_cases hsl : c = '/'
      · subst hsl
        show pctUnescape ('%' :: '2' :: 'F' :: base64_prep s) = '/' :: s
        rw [show ∀ l : Str, pctUnescape ('%' :: '2' :: 'F' :: l) = '/' :: pctUnescape l
          from fun l => rfl]
        rw [ih]
      · have hone : pyReplace '/' (str "%2F") [c] = [c] := by
          show (if c = '/' then str "%2F" else [c]) ++ pyReplace '/' (str "%2F") [] = [c]
          rw [if_neg hsl]
          rfl
        rw [hone]
        show pctUnescape (c :: base64_prep s) = c :: s
        rw [pctUnescape_cons_plain hc, ih]

/-- Membership in a single-character replacement. -/
theorem mem_pyReplace {a c : Char} {r : Str} :
    ∀ {s : Str}, a ∈ pyReplace c r s → a ∈ r ∨ (a ∈ s ∧ a ≠ c)
  | [], h => by simp [pyReplace] at h
  | x :: s, h => by
    simp only [pyReplace, List.mem_append] at h
    rcases h with h | h
    · by_cases hx : x = c
      · rw [if_pos hx] at h
        exact Or.inl h
      · rw [if_neg hx] at h
        simp only [List.mem_singleton] at h
        subst h
        exact Or.inr ⟨List.mem_cons_self a s, hx⟩
    · rcases mem_pyReplace h with h' | ⟨ha, hne⟩
      · exact Or.inl h'
      · exact Or.inr ⟨List.mem_cons_of_mem x ha, hne⟩

/-- base64_prep output never contains a raw plus. -/
theorem plus_not_mem_prep (s : Str) : '+' ∉ base64_prep s := by
  intro hmem
  rcases mem_pyReplace hmem with h | ⟨h1, _⟩
  · exact absurd h (by decide)
  · rcases mem_pyReplace h1 with h' | ⟨_, hne⟩
    · exact absurd h' (by decide)
    · exact hne rfl

/-- base64_prep output never contains a raw slash. -/
theorem slash_not_mem_prep (s : Str) : '/' ∉ base64_prep s := by
  intro hmem
  rcases mem_pyReplace hmem with h | ⟨_, hne⟩
  · exact absurd h (by decide)
  · exact hne rfl

/-! ## Helper lemmas for the report averages -/

/-- rx_avg on a present key with a nonzero divisor. -/
theorem rx_avg_some {st : AgentState} {X : ℕ} {nic : Str} {v : ℤ}
    (hv : st.t_rx nic = some v) (hX : X ≠ 0) :
    rx_avg st X nic = some (pyTrunc ((v : ℚ) / (X : ℚ))) := by
  unfold rx_avg
  rw [hv]
  show (if X = 0 then none else some (pyTrunc ((v : ℚ) / (X : ℚ)))) = _
  rw [if_neg hX]

/-- tx_avg on a present key with a nonzero divisor. -/
theorem tx_avg_some {st : AgentState} {X : ℕ} {nic : Str} {v : ℤ}
    (hv : st.t_tx nic = some v) (hX : X ≠ 0) :
    tx_avg st X nic = some (pyTrunc ((v : ℚ) / (X : ℚ))) := by
  unfold tx_avg
  rw [hv]
  show (if X = 0 then none else some (pyTrunc ((v : ℚ) / (X : ℚ)))) = _
  rw [if_neg hX]

/-- iopsFinal when the device line, both initial readings, and a nonzero
total elapsed time are available. -/
theorem iopsFinal_some {d1 : List DiskLine} {rd0 wr0 : Str → Option ℤ} {ttd : ℚ}
    {mount disk : Str} {c5v c9v r0 w0 : ℤ}
    (hd : findDisk d1 disk = some (c5v, c9v)) (hr : rd0 mount = some r0)
    (hw : wr0 mount = some w0) (httd : ttd ≠ 0) :
    iopsFinal d1 rd0 wr0 ttd mount disk =
      some (pyTrunc ((((c5v - r0) * 512 : ℤ) : ℚ) / ttd),
            pyTrunc ((((c9v - w0) * 512 : ℤ) : ℚ) / ttd)) := by
  unfold iopsFinal
  rw [hd, hr, hw]
  show (if ttd = 0 then none
    else some (pyTrunc ((((c5v - r0) * 512 : ℤ) : ℚ) / ttd),
               pyTrunc ((((c9v - w0) * 512 : ℤ) : ℚ) / ttd))) = _
  rw [if_neg httd]

/-! ## Claim C1 -/

/-- Claim C1 (confirmed): for every completed run, every reported average —
cpu_avg, iow_avg, ram_avg, and each monitored interface's rx_avg and
tx_avg — equals the running sum accumulated over the ticks actually executed
divided by the number of ticks actually executed (the loop counter X at loop
exit), never by the configured target run_times. -/
theorem averages_use_actual_tick_count
    (cfg : Config) (envs : List TickEnv) (st0 st : AgentState) (X : ℕ) (nic : Str)
    (arx atx : ℤ)
    (hnd : cfg.nics.Nodup) (hmem : nic ∈ cfg.nics)
    (hrun : runLoop cfg envs 0 st0 = some (st, X)) (hne : envs ≠ [])
    (hc : st0.t_cpu = 0) (hi : st0.t_iow = 0) (hr : st0.t_ram = 0)
    (harx : st0.a_rx nic = some arx) (hatx : st0.a_tx nic = some atx)
    (htrx : st0.t_rx nic = some 0) (httx : st0.t_tx nic = some 0) :
    X = ticksPlanned cfg.M envs ∧
    cpu_avg st X = some ((((envs.take X).map cpuVal).sum : ℚ) / (X : ℚ)) ∧
    iow_avg st X = some ((((envs.take X).map iowVal).sum : ℚ) / (X : ℚ)) ∧
    ram_avg st X = some (((envs.take X).map ramVal).sum / (X : ℚ)) ∧
    rx_avg st X nic = some (pyTrunc
      (((nicRates Prod.fst nic (envs.take X) arx st0.start_time).sum : ℚ) / (X : ℚ))) ∧
    tx_avg st X nic = some (pyTrunc
      (((nicRates Prod.snd nic (envs.take X) atx st0.start_time).sum : ℚ) / (X : ℚ))) := by
  have hX : X = ticksPlanned cfg.M envs := by
    have := runLoop_ticks hrun
    omega
  have hXne : X ≠ 0 := by
    have h2 : 1 ≤ ticksPlanned cfg.M envs := ticksPlanned_pos hne
    omega
  obtain ⟨s1, s2, s3, s4⟩ := runLoop_scalars hrun
  obtain ⟨w1, w2, w3, w4⟩ := runLoop_nic hnd hmem hrun harx hatx htrx httx
  rw [← hX] at s1 s2 s3 w1 w2
  refine ⟨hX, ?_, ?_, ?_, ?_, ?_⟩
  · unfold cpu_avg
    rw [if_neg hXne, s1, hc, zero_add]
  · unfold iow_avg
    rw [if_neg hXne, s2, hi, zero_add]
  · unfold ram_avg
    rw [if_neg hXne, s3, hr, zero_add]
  · rw [rx_avg_some w1 hXne]
    simp
  · rw [tx_avg_some w2 hXne]
    simp

/-! ## Claim C2 -/

/-- Claim C2, amended: the loop performs exactly as many ticks as the
schedule offers (run_times of them) unless some tick observes a wall-clock
minute STRICTLY GREATER than the start minute M, in which case it stops
immediately after the first such tick.  A rollover that wraps to a smaller
minute value (59 to 0) is not detected by the MM > M check and the loop runs
to exhaustion. -/
theorem loop_stops_only_on_minute_increase :
    (∀ (cfg : Config) (envs : List TickEnv) (X0 : ℕ) (st st' : AgentState) (X' : ℕ),
      runLoop cfg envs X0 st = some (st', X') → X' = X0 + ticksPlanned cfg.M envs) ∧
    (∀ (M : ℕ) (envs : List TickEnv), (∀ e ∈ envs, e.minute ≤ M) →
      ticksPlanned M envs = envs.length) ∧
    (∀ (M : ℕ) (e : TickEnv) (pre post : List TickEnv), M < e.minute →
      (∀ e' ∈ pre, e'.minute ≤ M) →
      ticksPlanned M (pre ++ e :: post) = pre.length + 1) :=
  ⟨fun _ _ _ _ _ _ h => runLoop_ticks h,
   fun _ _ h => ticksPlanned_all_le h,
   fun _ _ _ _ hm h => ticksPlanned_break hm h⟩

/-! ## Claim C4 -/

/-- Claim C4 (confirmed): at window close the disk IOPS value is a single
whole-window counter delta — (end reading − the reading taken before the
first tick) scaled by 512 — divided by t_time_diff, the SUM of the per-tick
elapsed times of the executed ticks, whereas a network interface's final
value is the per-tick running sum divided by the tick count; the two metrics
use these two different methods. -/
theorem iops_whole_window_vs_nic_per_tick
    (cfg : Config) (envs : List TickEnv) (st0 st : AgentState) (X : ℕ)
    (d1 : List DiskLine) (rd0 wr0 : Str → Option ℤ) (mount disk : Str)
    (c5v c9v r0 w0 : ℤ) (nic : Str) (trx : ℤ)
    (hrun : runLoop cfg envs 0 st0 = some (st, X))
    (h0 : st0.t_time_diff = 0)
    (hd : findDisk d1 disk = some (c5v, c9v))
    (hr0 : rd0 mount = some r0) (hw0 : wr0 mount = some w0)
    (httd : st.t_time_diff ≠ 0)
    (htrx : st.t_rx nic = some trx) (hX : X ≠ 0) :
    st.t_time_diff = (elapsedList st0.start_time (envs.take X)).sum ∧
    iopsFinal d1 rd0 wr0 st.t_time_diff mount disk =
      some (pyTrunc ((((c5v - r0) * 512 : ℤ) : ℚ) / st.t_time_diff),
            pyTrunc ((((c9v - w0) * 512 : ℤ) : ℚ) / st.t_time_diff)) ∧
    rx_avg st X nic = some (pyTrunc ((trx : ℚ) / (X : ℚ))) := by
  have hXeq : X = ticksPlanned cfg.M envs := by
    have := runLoop_ticks hrun
    omega
  obtain ⟨s1, s2, s3, s4⟩ := runLoop_scalars hrun
  rw [← hXeq] at s4
  refine ⟨by rw [s4, h0, zero_add], iopsFinal_some hd hr0 hw0 httd, rx_avg_some htrx hX⟩

/-! ## Claim C5 -/

/-- Claim C5, amended: if a tick's vmstat read fails or returns unparseable
data, the agent raises an uncaught exception and the WHOLE run aborts with no
report; the tick does not contribute zero and the window does not continue. -/
theorem tick_failure_propagates (cfg : Config) (e : TickEnv) (st : AgentState)
    (rest : List TickEnv) (X0 : ℕ) :
    (tick cfg e st = none → runLoop cfg (e :: rest) X0 st = none) ∧
    (e.vmstat = [] → tick cfg e st = none) := by
  constructor
  · intro ht
    unfold runLoop
    rw [ht]
  · intro hv
    apply tick_parse_fail
    unfold parseVmstatTick
    rw [hv]
    rfl

/-! ## Claim C7 -/

/-- Claim C7, amended: each tick adds the snapshot count of matching sockets
to the port's running sum with no division by elapsed time, but the running
sum is SEEDED with a snapshot count taken before the first tick
(lines 196-201), so the final reported value is (pre-loop count + sum of
per-tick counts) divided by the actual tick count, not the per-tick sum
alone divided by the tick count. -/
theorem conn_avg_formula
    (cfg : Config) (envs : List TickEnv) (st0 st : AgentState) (X : ℕ) (p : Str) (c0 : ℕ)
    (hnd : cfg.ports.Nodup) (hp : p ∈ cfg.ports)
    (hrun : runLoop cfg envs 0 st0 = some (st, X)) (hne : envs ≠ [])
    (hc0 : st0.conns p = c0) :
    st.conns p = c0 + ((envs.take X).map (fun e => pyStrCount e.netstat (connPat p))).sum ∧
    con_avg st X p = some (pyTrunc (((c0 + ((envs.take X).map
      (fun e => pyStrCount e.netstat (connPat p))).sum : ℕ) : ℚ) / (X : ℚ))) ∧
    (∀ (ns0 : Str) (ps : List Str) (cs : Str → ℕ), ps.Nodup → p ∈ ps →
      connsInit ns0 ps cs p = pyStrCount ns0 (connPat p)) := by
  have hXeq : X = ticksPlanned cfg.M envs := by
    have := runLoop_ticks hrun
    omega
  have hXne : X ≠ 0 := by
    have h2 : 1 ≤ ticksPlanned cfg.M envs := ticksPlanned_pos hne
    omega
  have hcn := runLoop_conns hnd hp hrun
  rw [← hXeq] at hcn
  rw [hc0] at hcn
  refine ⟨hcn, ?_, fun ns0 ps cs hn hm => connsInit_mem hn hm⟩
  unfold con_avg
  rw [if_neg hXne, hcn]

/-! ## Claim C8 -/

/-- Claim C8 (confirmed): a reported total swap size of 0 yields swap usage 0
with no division and no error; a positive swap size yields
100 - (swap_free / swap_size) * 100. -/
theorem swap_usage_zero_guard :
    (∀ swap_free : ℤ, swap_usage 0 swap_free = 0) ∧
    (∀ swap_size swap_free : ℤ, 0 < swap_size →
      swap_usage swap_size swap_free =
        100 - (swap_free : ℚ) / (swap_size : ℚ) * 100) := by
  constructor
  · intro f
    unfold swap_usage
    rw [if_neg (by omega)]
  · intro sz f hs
    unfold swap_usage
    rw [if_pos hs]

/-- Witness for C8 at swap sizes 0 and 4. -/
theorem swap_usage_zero_guard_witness :
    swap_usage 0 5 = 0 ∧
    swap_usage 4 1 = 100 - ((1 : ℤ) : ℚ) / ((4 : ℤ) : ℚ) * 100 :=
  ⟨swap_usage_zero_guard.1 5, swap_usage_zero_guard.2 4 1 (by omega)⟩

/-! ## Claim C9 -/

/-- Claim C9 (confirmed): a positive process-table match count reports
status 1 without invoking the systemctl fallback; a zero count with a
systemctl binary present lets is-active decide (invoking it); a zero count
without systemctl reports 0, as does an empty ps output without systemctl. -/
theorem service_status_short_circuit :
    (∀ (name psOut : Str) (sysctl active : Bool) (n : ℤ),
      pyInt psOut = some n → 0 < n →
      service_status name psOut sysctl active = some (b64OfStr name ++ str ",1", false)) ∧
    (∀ (name psOut : Str) (active : Bool), pyInt psOut = some 0 →
      service_status name psOut true active =
        some (b64OfStr name ++ (if active then str ",1" else str ",0"), true)) ∧
    (∀ (name psOut : Str) (active : Bool), pyInt psOut = some 0 →
      service_status name psOut false active = some (b64OfStr name ++ str ",0", false)) ∧
    (∀ (name : Str) (active : Bool),
      service_status name [] false active = some (b64OfStr name ++ str ",0", false)) := by
  have hnil : pyInt ([] : Str) = none := rfl
  refine ⟨?_, ?_, ?_, ?_⟩
  · intro name psOut sysctl active n hp hn
    have hne : psOut ≠ [] := by
      intro hh
      rw [hh, hnil] at hp
      exact Option.noConfusion hp
    unfold service_status
    rw [if_pos hne, hp]
    show (if 0 < n then some (b64OfStr name ++ str ",1", false)
      else
        if sysctl = true then
          if active = true then some (b64OfStr name ++ str ",1", true)
          else some (b64OfStr name ++ str ",0", true)
        else some (b64OfStr name ++ str ",0", false)) =
      some (b64OfStr name ++ str ",1", false)
    rw [if_pos hn]
  · intro name psOut active hp
    have hne : psOut ≠ [] := by
      intro hh
      rw [hh, hnil] at hp
      exact Option.noConfusion hp
    unfold service_status
    rw [if_pos hne, hp]
    show (if (0 : ℤ) < 0 then some (b64OfStr name ++ str ",1", false)
      else
        if true = true then
          if active = true then some (b64OfStr name ++ str ",1", true)
          else some (b64OfStr name ++ str ",0", true)
        else some (b64OfStr name ++ str ",0", false)) =
      some (b64OfStr name ++ if active = true then str ",1" else str ",0", true)
    rw [if_neg (by omega : ¬ (0 : ℤ) < 0)]
    cases active <;> rfl
  · intro name psOut active hp
    have hne : psOut ≠ [] := by
      intro hh
      rw [hh, hnil] at hp
      exact Option.noConfusion hp
    unfold service_status
    rw [if_pos hne, hp]
    show (if (0 : ℤ) < 0 then some (b64OfStr name ++ str ",1", false)
      else
        if false = true then
          if active = true then some (b64OfStr name ++ str ",1", true)
          else some (b64OfStr name ++ str ",0", true)
        else some (b64OfStr name ++ str ",0", false)) =
      some (b64OfStr name ++ str ",0", false)
    rw [if_neg (by omega : ¬ (0 : ℤ) < 0)]
    rfl
  · intro name active
    unfold service_status
    rw [if_neg (by simp : ¬ (([] : Str) ≠ []))]
    rfl

/-! ## Claim C10 -/

/-- Claim C10 (confirmed): run_times = 60 // 3 = 20 ≥ 1, the minute check is
evaluated only at the end of a tick, so with a full-length schedule the loop
body runs at least once and X ≥ 1 at exit; therefore the divisor of every
average is nonzero and none of the average computations divides by zero. -/
theorem actual_ticks_positive :
    run_times = 20 ∧ 1 ≤ run_times ∧
    (∀ (cfg : Config) (envs : List TickEnv) (st0 st : AgentState) (X : ℕ),
      envs.length = run_times → runLoop cfg envs 0 st0 = some (st, X) →
      1 ≤ X ∧ (X : ℚ) ≠ 0 ∧ cpu_avg st X ≠ none ∧ iow_avg st X ≠ none ∧
      ram_avg st X ≠ none ∧ (∀ p : Str, con_avg st X p ≠ none) ∧
      (∀ (nic : Str) (v : ℤ), st.t_rx nic = some v → rx_avg st X nic ≠ none) ∧
      (∀ (nic : Str) (v : ℤ), st.t_tx nic = some v → tx_avg st X nic ≠ none)) := by
  refine ⟨rfl, by decide, ?_⟩
  intro cfg envs st0 st X hlen hrun
  have hne : envs ≠ [] := by
    intro hh
    rw [hh] at hlen
    exact absurd hlen.symm (by decide)
  have hXeq : X = 0 + ticksPlanned cfg.M envs := runLoop_ticks hrun
  have h2 : 1 ≤ ticksPlanned cfg.M envs := ticksPlanned_pos hne
  have hpos : 1 ≤ X := by omega
  have hX0 : X ≠ 0 := by omega
  refine ⟨hpos, Nat.cast_ne_zero.mpr hX0, ?_, ?_, ?_, ?_, ?_, ?_⟩
  · unfold cpu_avg
    rw [if_neg hX0]
    simp
  · unfold iow_avg
    rw [if_neg hX0]
    simp
  · unfold ram_avg
    rw [if_neg hX0]
    simp
  · intro p
    unfold con_avg
    rw [if_neg hX0]
    simp
  · intro nic v hv
    rw [rx_avg_some hv hX0]
    simp
  · intro nic v hv
    rw [tx_avg_some hv hX0]
    simp

/-! ## Claim C6 -/

/-- Claim C6, amended: decoding a report field produced by the gzip+base64
encoder compress_and_encode (undoing the percent escaping, base64-decoding,
then gunzipping) reproduces the exact pre-encode byte sequence, and such
fields contain no raw '+' or '/'.  The claim's universal no-raw-'+'-or-'/'
guarantee does NOT extend to fields encoded with plain b64encode and no
base64_prep, such as os_encoded (line 321) and the service names of
service_status. -/
theorem gzip_b64_field_roundtrip (gz gunz : List ℕ → List ℕ)
    (hinv : ∀ bs : List ℕ, gunz (gz bs) = bs)
    (data : List ℕ) (hbytes : ∀ b ∈ gz data, b < 256) :
    decodeField gunz (compress_and_encode gz data) = some data ∧
    '+' ∉ compress_and_encode gz data ∧ '/' ∉ compress_and_encode gz data := by
  refine ⟨?_, plus_not_mem_prep _, slash_not_mem_prep _⟩
  unfold decodeField compress_and_encode
  rw [pctUnescape_prep _ (pct_not_mem_b64Encode _), b64Decode_b64Encode _ hbytes]
  simp [hinv]

/-- Witness for the amended C6 with the identity compressor on two bytes. -/
theorem gzip_b64_field_roundtrip_witness :
    decodeField id (compress_and_encode id [72, 105]) = some [72, 105] ∧
    '+' ∉ compress_and_encode id [72, 105] ∧ '/' ∉ compress_and_encode id [72, 105] :=
  gzip_b64_field_roundtrip id id (fun _ => rfl) [72, 105] (by decide)

/-! ## Concrete evaluations: counterexamples and witnesses -/

section

attribute [local semireducible] Rat.add Rat.mul Rat.inv Rat.sub

/-- Claim C6, counterexample: the os_encoded field of the report is base64
encoded WITHOUT base64_prep (line 321), so an os_info of three '>' bytes
makes the report carry a raw '+' inside a base64-encoded field, refuting the
claim that every base64-encoded field of the report is free of raw '+' and
'/' characters. -/
theorem os_encoded_contains_plus : '+' ∈ os_encoded (str ">>>") (str "x") 0 := by decide

/-- Claim C2, counterexample: a window that starts at minute M = 59 and whose
very first tick observes minute 0 (the wall-clock minute HAS rolled over).
The claim says the loop stops immediately after that tick (1 tick); the
MM > M check never fires on a wrap to a smaller value, so all 20 ticks run. -/
theorem minute_wrap_not_detected :
    (runLoop cfg20 envs20 0 st020).map Prod.snd = some 20 ∧
    (runLoop cfg20 envs20 0 st020).map Prod.snd ≠ some 1 := by
  constructor
  · decide
  · decide

/-- Witness for the amended C2: the full-schedule case, the claim's own
5-of-20 scenario (minute boundary crossed on tick 5 of a 20-tick window
yields exactly 5 ticks), and the loop-exit equation on the 5-of-20 run. -/
theorem loop_stops_only_on_minute_increase_witness :
    (5 : ℕ) = 0 + ticksPlanned cfg2W.M envs2W ∧
    ticksPlanned 59 envs20 = envs20.length ∧
    ticksPlanned 30 (pre2W ++ env2W 4 :: post2W) = pre2W.length + 1 :=
  ⟨loop_stops_only_on_minute_increase.1 cfg2W envs2W 0 stZero st2W 5 (by rfl),
   loop_stops_only_on_minute_increase.2.1 59 envs20 (by decide),
   loop_stops_only_on_minute_increase.2.2 30 (env2W 4) pre2W post2W (by decide) (by decide)⟩

/-- Claim C5, counterexample: tick 1 succeeds, tick 2's vmstat read returns
empty unparseable output; the claim says the tick contributes zero and the
window continues, but the run aborts with an uncaught exception instead. -/
theorem bad_tick_aborts_run :
    runLoop cfg5 [env5good, env5bad] 0 stZero = none := by rfl

/-- Witness for the amended C5: the empty vmstat output makes the tick fail
and the failing tick kills the loop. -/
theorem tick_failure_propagates_witness :
    tick cfg5 env5bad stZero = none ∧ runLoop cfg5 [env5bad] 0 stZero = none :=
  ⟨(tick_failure_propagates cfg5 env5bad stZero [] 0).2 rfl,
   (tick_failure_propagates cfg5 env5bad stZero [] 0).1
     ((tick_failure_propagates cfg5 env5bad stZero [] 0).2 rfl)⟩

/-! ## Claim C3 -/

/-- Claim C3 (confirmed): on every tick, for every monitored interface found
in /proc/net/dev, the per-tick rate is (current counter − stored previous
counter) divided by the wall-clock time elapsed since the previous tick's
read, truncated toward zero; it is added to the running sum and the current
counter replaces the stored previous one.  For counters [1000, 1500, 1500]
read at times [0, 3, 6] the per-tick rates are [166, 0] and the reported
average over the 2 ticks is 83. -/
theorem per_tick_net_rate :
    (∀ (cfg : Config) (e : TickEnv) (st st' : AgentState) (nic : Str)
      (r t arx atx trx ttx : ℤ),
      cfg.nics.Nodup → nic ∈ cfg.nics →
      findNic e.netDev nic = some (r, t) →
      st.a_rx nic = some arx → st.a_tx nic = some atx →
      st.t_rx nic = some trx → st.t_tx nic = some ttx →
      tick cfg e st = some st' →
      e.tTime - st.start_time ≠ 0 ∧
      st'.t_rx nic = some (trx + pyTrunc (((r - arx : ℤ) : ℚ) / (e.tTime - st.start_time))) ∧
      st'.a_rx nic = some r ∧
      st'.t_tx nic = some (ttx + pyTrunc (((t - atx : ℤ) : ℚ) / (e.tTime - st.start_time))) ∧
      st'.a_tx nic = some t) ∧
    (nicRates Prod.fst (str "e0") envs3 1000 0 = [166, 0] ∧
     st3W.t_rx (str "e0") = some 166 ∧
     rx_avg st3W 2 (str "e0") = some 83) := by
  constructor
  · intro cfg e st st' nic r t arx atx trx ttx hnd hmem hf h1 h2 h3 h4 ht
    obtain ⟨htd, n1, n2, n3, n4⟩ := tick_nic_found hnd hmem hf h1 h2 h3 h4 ht
    exact ⟨htd, n3, n1, n4, n2⟩
  · refine ⟨by decide, by decide, by decide⟩

/-- Witness for C3's per-tick statement at the first tick of the example run. -/
theorem per_tick_net_rate_witness :
    env3a.tTime - st03.start_time ≠ 0 ∧
    st3a.t_rx (str "e0") =
      some (0 + pyTrunc (((1500 - 1000 : ℤ) : ℚ) / (env3a.tTime - st03.start_time))) ∧
    st3a.a_rx (str "e0") = some 1500 ∧
    st3a.t_tx (str "e0") =
      some (0 + pyTrunc (((800 - 800 : ℤ) : ℚ) / (env3a.tTime - st03.start_time))) ∧
    st3a.a_tx (str "e0") = some 800 :=
  per_tick_net_rate.1 cfg3 env3a st03 st3a (str "e0") 1500 800 1000 800 0 0
    (by decide) (by decide) (by decide) (by decide) (by decide) (by decide) (by decide)
    (by rfl)

/-- Witness for C1 on the 2-tick example run. -/
theorem averages_use_actual_tick_count_witness :
    (2 : ℕ) = ticksPlanned cfg3.M envs3 ∧
    cpu_avg st3W 2 = some ((((envs3.take 2).map cpuVal).sum : ℚ) / ((2 : ℕ) : ℚ)) ∧
    iow_avg st3W 2 = some ((((envs3.take 2).map iowVal).sum : ℚ) / ((2 : ℕ) : ℚ)) ∧
    ram_avg st3W 2 = some (((envs3.take 2).map ramVal).sum / ((2 : ℕ) : ℚ)) ∧
    rx_avg st3W 2 (str "e0") = some (pyTrunc
      (((nicRates Prod.fst (str "e0") (envs3.take 2) 1000 st03.start_time).sum : ℚ) /
        ((2 : ℕ) : ℚ))) ∧
    tx_avg st3W 2 (str "e0") = some (pyTrunc
      (((nicRates Prod.snd (str "e0") (envs3.take 2) 800 st03.start_time).sum : ℚ) /
        ((2 : ℕ) : ℚ))) :=
  averages_use_actual_tick_count cfg3 envs3 st03 st3W 2 (str "e0") 1000 800
    (by decide) (by decide) (by rfl) (by simp [envs3]) rfl rfl rfl
    (by decide) (by decide) (by decide) (by decide)

/-- Witness for C4 on the 2-tick example run with the hardcoded sda1 target. -/
theorem iops_whole_window_vs_nic_per_tick_witness :
    st3W.t_time_diff = (elapsedList st03.start_time (envs3.take 2)).sum ∧
    iopsFinal d41 iops40.1 iops40.2 st3W.t_time_diff (str "/") (str "sda1") =
      some (pyTrunc ((((700 - 100) * 512 : ℤ) : ℚ) / st3W.t_time_diff),
            pyTrunc ((((800 - 200) * 512 : ℤ) : ℚ) / st3W.t_time_diff)) ∧
    rx_avg st3W 2 (str "e0") = some (pyTrunc ((166 : ℚ) / ((2 : ℕ) : ℚ))) :=
  iops_whole_window_vs_nic_per_tick cfg3 envs3 st03 st3W 2 d41 iops40.1 iops40.2
    (str "/") (str "sda1") 700 800 100 200 (str "e0") 166
    (by rfl) rfl (by decide) (by decide) (by decide) (by decide) (by decide) (by decide)

/-- Claim C7, counterexample: one watched port, a pre-loop netstat snapshot
with one live :80 connection, one tick during which no :80 connection is
live.  The reported value is 1, but the running sum of per-tick counts is 0,
so the claimed formula (per-tick sum / tick count) predicts 0. -/
theorem conn_avg_includes_preloop_count :
    con_avg st7W 1 (str "80") = some 1 ∧
    ((envs7.take 1).map (fun e => pyStrCount e.netstat (connPat (str "80")))).sum = 0 ∧
    con_avg st7W 1 (str "80") ≠ some (pyTrunc ((((envs7.take 1).map
      (fun e => pyStrCount e.netstat (connPat (str "80")))).sum : ℚ) / ((1 : ℕ) : ℚ))) := by
  refine ⟨by decide, by decide, by decide⟩

/-- Witness for the amended C7 on the one-tick run seeded with one pre-loop
connection. -/
theorem conn_avg_formula_witness :
    st7W.conns (str "80") =
      1 + ((envs7.take 1).map (fun e => pyStrCount e.netstat (connPat (str "80")))).sum ∧
    con_avg st7W 1 (str "80") = some (pyTrunc (((1 + ((envs7.take 1).map
      (fun e => pyStrCount e.netstat (connPat (str "80")))).sum : ℕ) : ℚ) /
        ((1 : ℕ) : ℚ))) ∧
    connsInit netstat07 [str "80"] (fun _ => 0) (str "80") =
      pyStrCount netstat07 (connPat (str "80")) :=
  have hmain := conn_avg_formula cfg7 envs7 st07 st7W 1 (str "80") 1
    (by decide) (by decide) (by rfl) (by simp [envs7]) (by decide)
  ⟨hmain.1, hmain.2.1, hmain.2.2 netstat07 [str "80"] (fun _ => 0) (by decide) (by decide)⟩

/-- Witness for C10 on a full 20-tick run. -/
theorem actual_ticks_positive_witness :
    1 ≤ 20 ∧ ((20 : ℕ) : ℚ) ≠ 0 ∧ cpu_avg stW20 20 ≠ none ∧ iow_avg stW20 20 ≠ none ∧
    ram_avg stW20 20 ≠ none ∧ con_avg stW20 20 (str "80") ≠ none ∧
    rx_avg stW20 20 (str "e0") ≠ none ∧ tx_avg stW20 20 (str "e0") ≠ none :=
  have hmain := actual_ticks_positive.2.2 cfg20 envs20 st020 stW20 20 (by decide) (by rfl)
  ⟨hmain.1, hmain.2.1, hmain.2.2.1, hmain.2.2.2.1, hmain.2.2.2.2.1,
   hmain.2.2.2.2.2.1 (str "80"),
   hmain.2.2.2.2.2.2.1 (str "e0") 0 (by decide),
   hmain.2.2.2.2.2.2.2 (str "e0") 0 (by decide)⟩

/-- Witness for C9: sshd with two matching processes short-circuits to
status 1 without systemctl; a zero count with systemctl present follows
is-active; a zero count with no systemctl reports 0; empty ps output with no
systemctl reports 0. -/
theorem service_status_short_circuit_witness :
    service_status (str "ssh") (str "2") false false =
      some (b64OfStr (str "ssh") ++ str ",1", false) ∧
    service_status (str "ssh") (str "0") true true =
      some (b64OfStr (str "ssh") ++ (if true then str ",1" else str ",0"), true) ∧
    service_status (str "ssh") (str "0") false true =
      some (b64OfStr (str "ssh") ++ str ",0", false) ∧
    service_status (str "ssh") [] false true =
      some (b64OfStr (str "ssh") ++ str ",0", false) :=
  ⟨service_status_short_circuit.1 (str "ssh") (str "2") false false 2 (by decide) (by decide),
   service_status_short_circuit.2.1 (str "ssh") (str "0") true (by decide),
   service_status_short_circuit.2.2.1 (str "ssh") (str "0") true (by decide),
   service_status_short_circuit.2.2.2 (str "ssh") true⟩

end

end HetrixAgent
